import Mathlib

/-!
Verification of the hierarchical-diagonalization engine of
`scqubits/core/circuit.py` (classes `Subsystem`/`Circuit` and the module-level
helper `truncation_template`).

Conventions of the shallow embedding:
* Python nested lists of integer variable indices (`system_hierarchy` and its
  entries) become the mutual inductive types `Item`/`ItemList`;
  `flatten_list_recursive` (`scqubits/utils/misc.py`, a helper not shipped
  with the core file) is modelled as order-preserving recursive flattening,
  matching its name and every call site.
* A sympy expression in `as_coefficients_dict` form becomes a formal sum
  `Ham = List (Mono × ℚ)`: a monomial is abstracted to an identifier together
  with the list of variable indices carried by its operator symbols (the only
  data `generate_subsystems` inspects, via `get_trailing_number` on the free
  symbols that are not branch parameters, external fluxes or offset charges).
  Lists may repeat a monomial; `coeff` sums the entries, which agrees with
  sympy's merged dictionaries because every step of the code is linear in the
  coefficients and classifies a term only by its variable-index set.
* Matrices built with `scipy.sparse` become `Matrix (Fin n) (Fin n) ℝ/ℂ`;
  float entries are read as exact reals.
-/

mutual

/-- An entry of a (possibly nested) Python list of variable indices:
either an integer or a sub-list. -/
inductive Item where
  | num : Nat → Item
  | lst : ItemList → Item
deriving Repr

/-- A Python list of (possibly nested) variable-index entries. -/
inductive ItemList where
  | nil : ItemList
  | cons : Item → ItemList → ItemList
deriving Repr

end

mutual

/-- Boolean equality of nested entries. -/
def Item.beq : Item → Item → Bool
  | .num a, .num b => a == b
  | .lst a, .lst b => ItemList.beq a b
  | _, _ => false

/-- Boolean equality of nested lists. -/
def ItemList.beq : ItemList → ItemList → Bool
  | .nil, .nil => true
  | .cons x xs, .cons y ys => Item.beq x y && ItemList.beq xs ys
  | _, _ => false

end

mutual

/-- Correctness of `Item.beq`. -/
def Item.beq_iff : ∀ a b : Item, Item.beq a b = true ↔ a = b
  | .num a, .num b => by simp [Item.beq]
  | .num a, .lst b => by simp [Item.beq]
  | .lst a, .num b => by simp [Item.beq]
  | .lst a, .lst b => by simp [Item.beq, ItemList.beq_iff a b]

/-- Correctness of `ItemList.beq`. -/
def ItemList.beq_iff : ∀ a b : ItemList, ItemList.beq a b = true ↔ a = b
  | .nil, .nil => by simp [ItemList.beq]
  | .nil, .cons y ys => by simp [ItemList.beq]
  | .cons x xs, .nil => by simp [ItemList.beq]
  | .cons x xs, .cons y ys => by
      simp [ItemList.beq, Item.beq_iff x y, ItemList.beq_iff xs ys]

end

instance : DecidableEq Item :=
  fun a b => decidable_of_iff (Item.beq a b = true) (Item.beq_iff a b)

instance : DecidableEq ItemList :=
  fun a b => decidable_of_iff (ItemList.beq a b = true) (ItemList.beq_iff a b)

mutual

/-- Flattening of a single (possibly nested) entry. -/
def Item.flatten : Item → List Nat
  | .num n => [n]
  | .lst l => ItemList.flatten l

/-- Modelled from the call sites of `flatten_list_recursive`
(`scqubits/utils/misc.py`, not part of the core file): order-preserving
recursive flattening of a nested list of integers. -/
def ItemList.flatten : ItemList → List Nat
  | .nil => []
  | .cons g gs => Item.flatten g ++ ItemList.flatten gs

end

/-- The embedding of a plain Python list of integers. -/
def ofNums : List Nat → ItemList
  | [] => .nil
  | n :: rest => .cons (.num n) (ofNums rest)

/-- Number of top-level entries of a nested list. -/
def ItemList.length : ItemList → Nat
  | .nil => 0
  | .cons _ gs => 1 + ItemList.length gs

/-- Maps the top-level entries of a nested list into an ordinary list. -/
def ItemList.mapToList {α : Type} (f : Item → α) : ItemList → List α
  | .nil => []
  | .cons g gs => f g :: ItemList.mapToList f gs

/-- A truncated-dimension entry of `subsystem_trunc_dims`: either a plain
integer, or a Python list `[combined_dim, inner_template]`. -/
inductive TruncDim where
  | single : Nat → TruncDim
  | group : Nat → List TruncDim → TruncDim
deriving Repr

/-- The Python expression `trunc_dims[i][0] if type(trunc_dims[i]) == list
else trunc_dims[i]`: a list entry contributes its first element. -/
def TruncDim.top : TruncDim → Nat
  | TruncDim.single n => n
  | TruncDim.group n _ => n

/-- Extracts the inner template stored in a nested truncation entry. -/
def TruncDim.inner : TruncDim → Option (List TruncDim)
  | TruncDim.single _ => none
  | TruncDim.group _ t => some t

/-- Embedding of the module-level function `truncation_template`
(circuit.py lines 54-96).  A top-level group equal to its recursive
flattening receives `individual_trunc_dim`; any other group receives
`[combined_trunc_dim, truncation_template(group)]`, where the recursive call
is made without arguments and therefore uses the Python defaults
`individual_trunc_dim = 6`, `combined_trunc_dim = 50`. -/
def truncation_template : ItemList → Nat → Nat → List TruncDim
  | .nil, _, _ => []
  | .cons (.num _) gs, ind, comb =>
      TruncDim.single ind :: truncation_template gs ind comb
  | .cons (.lst l) gs, ind, comb =>
      (if l = ofNums (ItemList.flatten l) then TruncDim.single ind
       else TruncDim.group comb (truncation_template l 6 50))
        :: truncation_template gs ind comb

/-- Loop body of `Subsystem.get_subsystem_index` (circuit.py lines 540-557):
`for index, group in enumerate(system_hierarchy): if var_index in
flatten_list_recursive(group): return index`, falling through to Python's
implicit `None`. -/
def get_subsystem_index_from : Nat → ItemList → Nat → Option Nat
  | _, .nil, _ => none
  | idx, .cons g gs, v =>
      if v ∈ g.flatten then some idx
      else get_subsystem_index_from (idx + 1) gs v

/-- Embedding of `Subsystem.get_subsystem_index`. -/
def get_subsystem_index (hier : ItemList) (varIndex : Nat) : Option Nat :=
  get_subsystem_index_from 0 hier varIndex

/-- A monomial of a canonical symbolic Hamiltonian, abstracted to an
identifier plus `term_var_categories`: the variable indices extracted by
`get_trailing_number` from its free symbols after branch parameters, external
fluxes and offset charges are removed (circuit.py lines 480-491). -/
structure Mono where
  id : Nat
  vars : List Nat
deriving DecidableEq, Repr

/-- A symbolic Hamiltonian as a formal sum of coefficient-weighted
monomials (the `as_coefficients_dict` view of a sympy expression). -/
abbrev Ham := List (Mono × ℚ)

/-- Coefficient of a monomial in a formal sum. -/
def coeff : Ham → Mono → ℚ
  | [], _ => 0
  | (m, c) :: t, m' => (if m = m' then c else 0) + coeff t m'

/-- Test `len(set(term_var_categories) - set(subsys_index_list)) == 0`
selecting a self-Hamiltonian term (circuit.py line 493). -/
def selfTerm (g : List Nat) (m : Mono) : Bool :=
  m.vars.all (fun v => v ∈ g)

/-- Test selecting an interaction term: the variable set leaves the group
but also meets it (circuit.py lines 496-499). -/
def intTerm (g : List Nat) (m : Mono) : Bool :=
  (m.vars.any (fun v => ¬ v ∈ g)) && (m.vars.any (fun v => v ∈ g))

/-- Coefficient-wise negation, used to express the `-=` update. -/
def hamNeg (H : Ham) : Ham := H.map (fun p => (p.1, -p.2))

/-- Embedding of the loop of `Subsystem.generate_subsystems`
(circuit.py lines 464-503).  For each top-level group (flattened first),
the terms of the current Hamiltonian whose variable set is contained in the
group form `H_sys`, the terms that properly straddle the group form `H_int`,
and the Hamiltonian is then updated by `hamiltonian -= H_sys - H_int`, i.e.
`H_sys` is subtracted while `H_int` is added back.  Returns the lists of
self-Hamiltonians and interaction Hamiltonians, one per group. -/
def generate_subsystems : ItemList → Ham → List Ham × List Ham
  | .nil, _ => ([], [])
  | .cons g gs, H =>
      let gf := g.flatten
      let hSys := H.filter (fun p => selfTerm gf p.1)
      let hInt := H.filter (fun p => intTerm gf p.1)
      let rest := generate_subsystems gs (H ++ hamNeg hSys ++ hInt)
      (hSys :: rest.1, hInt :: rest.2)

/-- Total coefficient of a monomial summed over a list of buckets. -/
def bucketCoeff (buckets : List Ham) (m : Mono) : ℚ :=
  (buckets.map (fun H => coeff H m)).sum

/-- Per-variable truncation data of a `Circuit`/`Subsystem` instance, as
read by `hilbertdim` (circuit.py lines 842-868) through `get_cutoffs`:
the values of the `cutoff_n_i` attributes (periodic variables) and of the
`cutoff_ext_i` attributes (extended variables), plus the hierarchy data. -/
structure CircuitCfg where
  hierarchicalDiagonalization : Bool
  cutoffN : List Nat
  cutoffExt : List Nat
  systemHierarchy : ItemList
  subsystemTruncDims : List TruncDim

/-- Embedding of `get_cutoffs`: the periodic and extended cutoff values,
keyed by cutoff kind (circuit.py lines 1327-1343). -/
def get_cutoffs (c : CircuitCfg) : List Nat × List Nat :=
  (c.cutoffN, c.cutoffExt)

/-- The list comprehension `[trunc_dims[i][0] if ... else trunc_dims[i] for i
in range(len(system_hierarchy))]`; an out-of-range index is a Python
`IndexError`, modelled as `none`. -/
def collectTopDims (tds : List TruncDim) : List Nat → Option (List Nat)
  | [] => some []
  | i :: is =>
      match tds[i]? with
      | none => none
      | some d =>
          match collectTopDims tds is with
          | none => none
          | some r => some (TruncDim.top d :: r)

/-- Embedding of `Subsystem.hilbertdim` (circuit.py lines 842-868).  Flat
instances multiply `2*k+1` over the periodic cutoffs and `k` over the
extended cutoffs; hierarchical instances multiply the leading truncated
dimension of every top-level group. -/
def hilbertdim (c : CircuitCfg) : Option Nat :=
  if !c.hierarchicalDiagonalization then
    some ((((get_cutoffs c).1.map (fun k => 2 * k + 1)) ++ (get_cutoffs c).2).prod)
  else
    (collectTopDims c.subsystemTruncDims
        (List.range c.systemHierarchy.length)).map List.prod

/-- Outcome of the hierarchy branch of `Circuit.initiate_circuit`
(circuit.py lines 2453-2478). -/
inductive InitOutcome where
  | flatInitialized
  | structuralError
  | subsystemsBuilt : List TruncDim → InitOutcome

/-- The recomputation `system_hierarchy != [] and system_hierarchy !=
flatten_list_recursive(system_hierarchy)` (circuit.py lines 2453-2457). -/
def hierRequested (hier : ItemList) : Bool :=
  !(hier = ItemList.nil) && !(hier = ofNums hier.flatten)

/-- Embedding of the tail of `Circuit.initiate_circuit` (circuit.py lines
2453-2478): with hierarchical diagonalization requested, a missing
(`None`) `subsystem_trunc_dims` raises the structural `Exception` before
`generate_subsystems` runs; any supplied list is accepted and the subsystem
tree build starts with it.  Without hierarchy the flat pipeline runs. -/
def initiate_circuit (hier : ItemList)
    (subsystemTruncDims : Option (List TruncDim)) : InitOutcome :=
  if hierRequested hier then
    match subsystemTruncDims with
    | none => InitOutcome.structuralError
    | some tds => InitOutcome.subsystemsBuilt tds
  else InitOutcome.flatInitialized

/-- A truncated-dimension list supplies an entry for every group of the
hierarchy. -/
def suppliesEveryGroup (tds : Option (List TruncDim)) (hier : ItemList) : Prop :=
  match tds with
  | none => False
  | some l => hier.length ≤ l.length

/-- The branch `if len(flux_shifts) != 0: flux_shifts =
list(list(flux_shifts)[0]) else: flux_shifts = []` of
`generate_hamiltonian_sym_for_numerics` (circuit.py lines 756-763): the
solution set returned by `sympy.linsolve` for the flux-shift linear system,
or the empty list when the solver finds no solution. -/
def fluxShifts (solverResult : Option (List ℚ)) : List ℚ :=
  match solverResult with
  | some sol => sol
  | none => []

/-- The dictionary `dict(zip(list(flux_shift_vars.keys()),
list(flux_shifts)))` (circuit.py line 765). -/
def fluxShiftsDict (keys : List Nat) (solverResult : Option (List ℚ)) :
    List (Nat × ℚ) :=
  keys.zip (fluxShifts solverResult)

/-- The value that ends up substituted for the shift symbol `Δθ_v` of an
extended variable `v` by the two successive `subs` calls (circuit.py lines
767-775): the dictionary entry when one exists, and otherwise `0` from the
sweep `H.subs([(var, 0) for var in flux_shift_vars.values()])`. -/
def substitutedShift (keys : List Nat) (solverResult : Option (List ℚ))
    (v : Nat) : ℚ :=
  match (fluxShiftsDict keys solverResult).lookup v with
  | some c => c
  | none => 0

/-- Embedding of `Subsystem._evals_calc` (circuit.py lines 1682-1699): both
the sparse and the dense branches end in `np.sort(evals)`, modelled as an
ascending merge sort of the eigenvalues delivered by the backend solver. -/
def evals_calc (raw : List ℚ) : List ℚ :=
  raw.mergeSort (fun a b => decide (a ≤ b))

/-- Modelled from the spec: `order_eigensystem`
(`scqubits/utils/spectrum_utils.py`, not part of the core file) sorts the
eigenvalues into ascending order and applies the same permutation to the
eigenvectors; here an eigensystem is a list of eigenvalue/eigenvector
pairs and the pairs are sorted by eigenvalue. -/
def order_eigensystem (pairs : List (ℚ × List ℚ)) : List (ℚ × List ℚ) :=
  pairs.mergeSort (fun a b => decide (a.1 ≤ b.1))

/-- Embedding of `Subsystem._esys_calc` (circuit.py lines 1701-1721): the
backend eigensolver output is passed through `order_eigensystem`. -/
def esys_calc (pairs : List (ℚ × List ℚ)) : List (ℚ × List ℚ) :=
  order_eigensystem pairs

/-- Modelled from the spec: `Grid1d` (`scqubits/core/discretization.py`, not
part of the core file) is a uniform grid of `ptCount` points over the
configured interval; `make_linspace` is `numpy.linspace(minVal, maxVal,
ptCount)`. -/
structure Grid1d where
  minVal : ℚ
  maxVal : ℚ
  ptCount : Nat

/-- Coordinate `i` of `numpy.linspace(minVal, maxVal, ptCount)`. -/
def Grid1d.coord (g : Grid1d) (i : Nat) : ℚ :=
  g.minVal + i * (g.maxVal - g.minVal) / ((g.ptCount - 1 : ℕ) : ℚ)

/-- Embedding of `Subsystem._cos_phi` (circuit.py lines 1064-1082): the
diagonal matrix whose entries are `np.cos` of the grid coordinates. -/
noncomputable def cos_phi (g : Grid1d) :
    Matrix (Fin g.ptCount) (Fin g.ptCount) ℝ :=
  Matrix.diagonal fun i => Real.cos ((g.coord i : ℚ) : ℝ)

/-- Embedding of `Subsystem._sin_phi` (circuit.py lines 1084-1102): the
source fills `diag_elements` with `np.cos(grid.make_linspace())`, so the
returned diagonal holds cosines, not sines. -/
noncomputable def sin_phi (g : Grid1d) :
    Matrix (Fin g.ptCount) (Fin g.ptCount) ℝ :=
  Matrix.diagonal fun i => Real.cos ((g.coord i : ℚ) : ℝ)

/-- The operator the specification prescribes for `sin`: the diagonal matrix
of the sines of the grid coordinates. -/
noncomputable def sin_phi_claimed (g : Grid1d) :
    Matrix (Fin g.ptCount) (Fin g.ptCount) ℝ :=
  Matrix.diagonal fun i => Real.sin ((g.coord i : ℚ) : ℝ)

/-- Embedding of `Subsystem._exp_i_theta_operator` (circuit.py lines
1124-1132): `sparse.dia_matrix(([-1.0]*dim, [-1]), shape=(dim, dim))`, the
matrix with `-1` on the diagonal directly below the main one. -/
def exp_i_theta (n : Nat) : Matrix (Fin (2 * n + 1)) (Fin (2 * n + 1)) ℂ :=
  Matrix.of fun i j => if (i : ℕ) = (j : ℕ) + 1 then -1 else 0

/-- Embedding of `Subsystem._exp_i_theta_operator_conjugate` (circuit.py
lines 1134-1142): `-1` on the diagonal directly above the main one. -/
def exp_i_theta_conjugate (n : Nat) :
    Matrix (Fin (2 * n + 1)) (Fin (2 * n + 1)) ℂ :=
  Matrix.of fun i j => if (j : ℕ) = (i : ℕ) + 1 then -1 else 0

/-- Embedding of `Subsystem._n_theta_operator` (circuit.py lines 1113-1122):
the diagonal matrix of `np.arange(-ncut, ncut + 1)`. -/
def n_theta (n : Nat) : Matrix (Fin (2 * n + 1)) (Fin (2 * n + 1)) ℂ :=
  Matrix.diagonal fun i => ((i : ℕ) : ℂ) - (n : ℂ)

/-- Embedding of `Subsystem._cos_theta` (circuit.py lines 1144-1150):
`0.5 * (exp_i_theta + exp_i_theta_conjugate)`. -/
noncomputable def cos_theta (n : Nat) :
    Matrix (Fin (2 * n + 1)) (Fin (2 * n + 1)) ℂ :=
  ((1 : ℂ) / 2) • (exp_i_theta n + exp_i_theta_conjugate n)

/-- Embedding of `Subsystem._sin_theta` (circuit.py lines 1152-1162):
`-1j * 0.5 * (exp_i_theta - exp_i_theta_conjugate)`. -/
noncomputable def sin_theta (n : Nat) :
    Matrix (Fin (2 * n + 1)) (Fin (2 * n + 1)) ℂ :=
  (-Complex.I * ((1 : ℂ) / 2)) • (exp_i_theta n - exp_i_theta_conjugate n)

/-- The charge raising operator of the specification: the shift-by-one
matrix with `+1` on the diagonal directly below the main one. -/
def charge_raising (n : Nat) : Matrix (Fin (2 * n + 1)) (Fin (2 * n + 1)) ℂ :=
  Matrix.of fun i j => if (i : ℕ) = (j : ℕ) + 1 then 1 else 0

/-- The charge lowering operator of the specification: the shift-by-one
matrix with `+1` on the diagonal directly above the main one. -/
def charge_lowering (n : Nat) : Matrix (Fin (2 * n + 1)) (Fin (2 * n + 1)) ℂ :=
  Matrix.of fun i j => if (j : ℕ) = (i : ℕ) + 1 then 1 else 0

/-- The cosine operator the claim prescribes: the sum of the raising and
lowering operators scaled by `1/2`. -/
noncomputable def cos_theta_claimed (n : Nat) :
    Matrix (Fin (2 * n + 1)) (Fin (2 * n + 1)) ℂ :=
  ((1 : ℂ) / 2) • (charge_raising n + charge_lowering n)

/-- The sine operator the claim prescribes: the difference of the raising
and lowering operators scaled by `-i/2`. -/
noncomputable def sin_theta_claimed (n : Nat) :
    Matrix (Fin (2 * n + 1)) (Fin (2 * n + 1)) ℂ :=
  (-Complex.I * ((1 : ℂ) / 2)) • (charge_raising n - charge_lowering n)

/-- The specification's reading of a truncation-template entry: flat groups
receive the individual dimension, nested groups receive the combined
dimension paired with an inner template built from the defaults `6`/`50`. -/
def templAssign (ind comb : Nat) : Item → TruncDim
  | Item.num _ => TruncDim.single ind
  | Item.lst l =>
      if l = ofNums (ItemList.flatten l) then TruncDim.single ind
      else TruncDim.group comb (truncation_template l 6 50)

lemma truncation_template_eq_map :
    ∀ (hier : ItemList) (ind comb : Nat),
      truncation_template hier ind comb =
        ItemList.mapToList (templAssign ind comb) hier
  | .nil, _, _ => rfl
  | .cons (.num n) gs, ind, comb => by
      simp only [truncation_template, ItemList.mapToList, templAssign]
      rw [truncation_template_eq_map gs ind comb]
  | .cons (.lst l) gs, ind, comb => by
      simp only [truncation_template, ItemList.mapToList, templAssign]
      rw [truncation_template_eq_map gs ind comb]

lemma mapToList_congr {α : Type} (f f' : Item → α) (h : ∀ g, f g = f' g) :
    ∀ l : ItemList, ItemList.mapToList f l = ItemList.mapToList f' l
  | .nil => rfl
  | .cons g gs => by
      simp only [ItemList.mapToList, h g, mapToList_congr f f' h gs]

lemma map_mapToList {α β : Type} (f : Item → α) (g : α → β) :
    ∀ l : ItemList,
      (ItemList.mapToList f l).map g = ItemList.mapToList (fun x => g (f x)) l
  | .nil => rfl
  | .cons x xs => by
      simp only [ItemList.mapToList, List.map_cons, map_mapToList f g xs]

lemma inner_templAssign_const (ind comb ind2 comb2 : Nat) (g : Item) :
    TruncDim.inner (templAssign ind comb g) =
      TruncDim.inner (templAssign ind2 comb2 g) := by
  cases g with
  | num k => rfl
  | lst l =>
      by_cases hfl : l = ofNums (ItemList.flatten l)
      · simp only [templAssign, if_pos hfl]; rfl
      · simp only [templAssign, if_neg hfl]; rfl

/-- C9: `truncation_template` assigns `individual_trunc_dim` to each flat
top-level group and `[combined_trunc_dim, inner template]` to each nested
top-level group, and the inner template of every nested group is computed
with the defaults (individual 6, combined 50), independent of the
`individual_trunc_dim`/`combined_trunc_dim` arguments supplied by the
caller. -/
theorem truncation_template_ignores_args_inside (hier : ItemList)
    (ind comb : Nat) :
    truncation_template hier ind comb =
      ItemList.mapToList (templAssign ind comb) hier
    ∧ ∀ ind2 comb2 : Nat,
        (truncation_template hier ind comb).map TruncDim.inner =
          (truncation_template hier ind2 comb2).map TruncDim.inner := by
  refine ⟨truncation_template_eq_map hier ind comb, fun ind2 comb2 => ?_⟩
  rw [truncation_template_eq_map hier ind comb,
    truncation_template_eq_map hier ind2 comb2, map_mapToList, map_mapToList]
  exact mapToList_congr _ _ (inner_templAssign_const ind comb ind2 comb2) hier

lemma get_subsystem_index_from_eq_none (v : Nat) :
    ∀ (hier : ItemList) (idx : Nat), v ∉ hier.flatten →
      get_subsystem_index_from idx hier v = none
  | .nil, _, _ => rfl
  | .cons g gs, idx, h => by
      have hsplit : v ∉ g.flatten ∧ v ∉ ItemList.flatten gs := by
        constructor <;> intro hm <;> refine h ?_ <;>
          simp only [ItemList.flatten, List.mem_append]
        · exact Or.inl hm
        · exact Or.inr hm
      simp only [get_subsystem_index_from, if_neg hsplit.1]
      exact get_subsystem_index_from_eq_none v gs (idx + 1) hsplit.2

/-- C10: for a variable index that belongs to no group of the instance's
`system_hierarchy`, `get_subsystem_index` falls through the loop without a
match and returns Python's implicit `None` instead of raising. -/
theorem get_subsystem_index_unmatched (hier : ItemList) (v : Nat)
    (h : v ∉ hier.flatten) :
    get_subsystem_index hier v = none :=
  get_subsystem_index_from_eq_none v hier 0 h

/-- Witness for C10 at the hierarchy `[[1], [2]]` and the unassigned
variable index `7`. -/
theorem get_subsystem_index_unmatched_witness :
    get_subsystem_index
      (ItemList.cons (Item.lst (ItemList.cons (Item.num 1) ItemList.nil))
        (ItemList.cons (Item.lst (ItemList.cons (Item.num 2) ItemList.nil))
          ItemList.nil)) 7 = none :=
  get_subsystem_index_unmatched _ 7 (by decide)

/-- C4: on a non-hierarchical instance, `hilbertdim` is the product of
`2*cutoff+1` over the periodic variables times the product of `cutoff` over
the extended variables. -/
theorem hilbertdim_flat (c : CircuitCfg)
    (h : c.hierarchicalDiagonalization = false) :
    hilbertdim c =
      some ((c.cutoffN.map (fun k => 2 * k + 1)).prod * c.cutoffExt.prod) := by
  simp [hilbertdim, get_cutoffs, h]

/-- Witness for C4: periodic cutoffs 5 and 2, extended cutoff 30 give
dimension `11 * 5 * 30 = 1650`. -/
theorem hilbertdim_flat_witness :
    hilbertdim ⟨false, [5, 2], [30], ItemList.nil, []⟩ = some 1650 :=
  (hilbertdim_flat ⟨false, [5, 2], [30], ItemList.nil, []⟩ rfl).trans (by decide)

lemma collectTopDims_range' (t : List TruncDim) :
    ∀ pre : List TruncDim,
      collectTopDims (pre ++ t) (List.range' pre.length t.length) =
        some (t.map TruncDim.top) := by
  induction t with
  | nil => intro pre; rfl
  | cons d t ih =>
      intro pre
      rw [List.length_cons, List.range'_succ]
      have hd : (pre ++ d :: t)[pre.length]? = some d := by
        rw [List.getElem?_append_right (Nat.le_refl pre.length)]
        simp
      simp only [collectTopDims, hd]
      have hrec : collectTopDims (pre ++ d :: t)
          (List.range' (pre.length + 1) t.length) =
            some (t.map TruncDim.top) := by
        have h2 := ih (pre ++ [d])
        simpa [List.append_assoc] using h2
      rw [hrec]
      rfl

/-- C5: on an instance using hierarchical diagonalization whose
`subsystem_trunc_dims` has one entry per top-level group, `hilbertdim` is
the product of the leading truncated dimension of every entry (the first
element when the entry is itself a list). -/
theorem hilbertdim_hier (c : CircuitCfg)
    (hh : c.hierarchicalDiagonalization = true)
    (hl : c.subsystemTruncDims.length = c.systemHierarchy.length) :
    hilbertdim c = some ((c.subsystemTruncDims.map TruncDim.top).prod) := by
  have h0 := collectTopDims_range' c.subsystemTruncDims []
  simp only [List.nil_append, List.length_nil] at h0
  rw [hilbertdim]
  simp only [hh, Bool.not_true, Bool.false_eq_true, if_false]
  rw [← hl, List.range_eq_range', h0]
  rfl

/-- Witness for C5: hierarchy `[[1], [2]]` with truncation entries `6` and
`[50, [6]]` gives dimension `6 * 50 = 300`. -/
theorem hilbertdim_hier_witness :
    hilbertdim ⟨true, [], [],
        ItemList.cons (Item.lst (ItemList.cons (Item.num 1) ItemList.nil))
          (ItemList.cons (Item.lst (ItemList.cons (Item.num 2) ItemList.nil))
            ItemList.nil),
        [TruncDim.single 6, TruncDim.group 50 [TruncDim.single 6]]⟩ =
      some 300 :=
  (hilbertdim_hier _ rfl (by decide)).trans (by decide)

/-- C8: when `sympy.linsolve` returns no solution for the flux-shift linear
system, the shift substituted for every extended variable's `Δθ` symbol is
zero — the empty solution list produces an empty dictionary and the final
substitution pass sends every remaining shift symbol to `0`; every branch of
the fallback is a total function of the solver outcome, so the
canonicalizer completes without raising. -/
theorem flux_shift_zero_when_no_solution (keys : List Nat) (v : Nat) :
    substitutedShift keys none v = 0 := by
  simp [substitutedShift, fluxShiftsDict, fluxShifts]

/-- C6: the eigensolver wrappers return eigenvalues in ascending order, and
when eigenvectors are requested the eigenvalue/eigenvector pairs of the
backend output are returned as a permutation sorted by eigenvalue, so
eigenvector `i` still belongs to eigenvalue `i`. -/
theorem eigensolver_ascending_matched (raw : List ℚ)
    (pairs : List (ℚ × List ℚ)) :
    (evals_calc raw).Sorted (· ≤ ·)
    ∧ ((esys_calc pairs).map Prod.fst).Sorted (· ≤ ·)
    ∧ (esys_calc pairs).Perm pairs := by
  refine ⟨?_, ?_, ?_⟩
  · have h := @List.sorted_mergeSort ℚ (fun a b => decide (a ≤ b))
      (fun a b c hab hbc => by
        simp only [decide_eq_true_eq] at *; exact le_trans hab hbc)
      (fun a b => by
        simp only [Bool.or_eq_true, decide_eq_true_eq]; exact le_total a b)
      raw
    exact h.imp (fun hab => by simpa using hab)
  · have h := @List.sorted_mergeSort (ℚ × List ℚ)
      (fun a b => decide (a.1 ≤ b.1))
      (fun a b c hab hbc => by
        simp only [decide_eq_true_eq] at *; exact le_trans hab hbc)
      (fun a b => by
        simp only [Bool.or_eq_true, decide_eq_true_eq]; exact le_total a.1 b.1)
      pairs
    exact List.Pairwise.map Prod.fst (fun a b hab => by simpa using hab) h
  · exact List.mergeSort_perm pairs _

/-- The two-group hierarchy `[[1], [2]]` used to exhibit the re-summation
failure of `generate_subsystems`. -/
def resumHier : ItemList :=
  ItemList.cons (Item.lst (ItemList.cons (Item.num 1) ItemList.nil))
    (ItemList.cons (Item.lst (ItemList.cons (Item.num 2) ItemList.nil))
      ItemList.nil)

/-- A single coupling monomial over the variables 1 and 2. -/
def resumMono : Mono := ⟨0, [1, 2]⟩

/-- The canonical Hamiltonian consisting of that coupling monomial with
coefficient `1`. -/
def resumHam : Ham := [(resumMono, 1)]

/-- C1: re-summing the self-Hamiltonians and interaction Hamiltonians
produced by `generate_subsystems` does NOT reproduce the original canonical
Hamiltonian.  For the hierarchy `[[1], [2]]` and the Hamiltonian made of one
coupling monomial with coefficient `1`, the update `hamiltonian -= H_sys -
H_int` adds each interaction term back instead of removing it, so the buckets
re-sum to coefficient `3` for that monomial while the original coefficient is
`1`. -/
theorem generate_subsystems_resum_triples_interaction :
    bucketCoeff ((generate_subsystems resumHier resumHam).1
          ++ (generate_subsystems resumHier resumHam).2) resumMono = 3
    ∧ coeff resumHam resumMono = 1 := by
  constructor
  · norm_num [generate_subsystems, bucketCoeff, coeff, selfTerm, intTerm,
      hamNeg, resumHier, resumHam, resumMono, Item.flatten, ItemList.flatten,
      List.filter]
  · norm_num [coeff, resumHam, resumMono]

/-- The grid `numpy.linspace(-1, 1, 3)` whose middle coordinate is `0`. -/
def gridSym : Grid1d := ⟨-1, 1, 3⟩

/-- C2: the `sin` operator built by `_sin_phi` is identical to the `cos`
operator for every grid — its diagonal is filled with `np.cos` of the grid
coordinates — and in particular differs from the diagonal matrix of the
sines of the grid coordinates: on the grid `linspace(-1, 1, 3)` the middle
diagonal entry is `cos 0 = 1` instead of `sin 0 = 0`. -/
theorem sin_phi_is_cos_diagonal :
    (∀ g : Grid1d, sin_phi g = cos_phi g)
    ∧ sin_phi gridSym ≠ sin_phi_claimed gridSym := by
  constructor
  · intro g; rfl
  · intro h
    have h2 := congrFun (congrFun h ⟨1, by norm_num [gridSym]⟩)
      ⟨1, by norm_num [gridSym]⟩
    simp only [sin_phi, sin_phi_claimed, Matrix.diagonal_apply_eq] at h2
    norm_num [Grid1d.coord, gridSym, Real.cos_zero, Real.sin_zero] at h2

/-- C3: the cosine and sine charge-basis operators built by `_cos_theta` and
`_sin_theta` are the negatives of the operators the claim prescribes —
`_exp_i_theta_operator` fills its shift diagonals with `-1.0` instead of
`+1.0` — and at `ncut = 1` the matrix entry `(1, 0)` of the code's cosine is
`-1/2` where the claimed `(raising + lowering)/2` has `+1/2`; the
charge-number operator part of the claim does hold. -/
theorem cos_sin_theta_negated :
    (∀ n : Nat, cos_theta n = (-1 : ℂ) • cos_theta_claimed n
        ∧ sin_theta n = (-1 : ℂ) • sin_theta_claimed n)
    ∧ cos_theta 1 1 0 = -(1 / 2 : ℂ)
    ∧ cos_theta_claimed 1 1 0 = (1 / 2 : ℂ)
    ∧ (∀ n : Nat, n_theta n =
        Matrix.diagonal fun i : Fin (2 * n + 1) => ((i : ℕ) : ℂ) - (n : ℂ)) := by
  refine ⟨fun n => ⟨?_, ?_⟩, ?_, ?_, fun n => rfl⟩
  · ext i j
    simp only [cos_theta, cos_theta_claimed, exp_i_theta, exp_i_theta_conjugate,
      charge_raising, charge_lowering, Matrix.smul_apply, Matrix.add_apply,
      Matrix.of_apply, smul_eq_mul]
    split_ifs <;> ring
  · ext i j
    simp only [sin_theta, sin_theta_claimed, exp_i_theta, exp_i_theta_conjugate,
      charge_raising, charge_lowering, Matrix.smul_apply, Matrix.sub_apply,
      Matrix.of_apply, smul_eq_mul]
    split_ifs <;> ring
  · show ((1 : ℂ) / 2) * (exp_i_theta 1 1 0 + exp_i_theta_conjugate 1 1 0) = _
    norm_num [exp_i_theta, exp_i_theta_conjugate]
  · show ((1 : ℂ) / 2) * (charge_raising 1 1 0 + charge_lowering 1 1 0) = _
    norm_num [charge_raising, charge_lowering]

/-- The hierarchy `[[1], [2]]` used for the `initiate_circuit` analysis. -/
def hierPair : ItemList :=
  ItemList.cons (Item.lst (ItemList.cons (Item.num 1) ItemList.nil))
    (ItemList.cons (Item.lst (ItemList.cons (Item.num 2) ItemList.nil))
      ItemList.nil)

/-- Counterexample to C7: for the hierarchy `[[1], [2]]` with the supplied
truncation list `[6]`, which lacks an entry for the second group, no
structural configuration error is raised — the check in `initiate_circuit`
only fires when `subsystem_trunc_dims` is `None`, so the subsystem build
starts with the short list. -/
theorem initiate_circuit_short_truncdims_accepted :
    hierRequested hierPair = true
    ∧ ¬ suppliesEveryGroup (some [TruncDim.single 6]) hierPair
    ∧ initiate_circuit hierPair (some [TruncDim.single 6]) =
        InitOutcome.subsystemsBuilt [TruncDim.single 6] := by
  refine ⟨by decide, ?_, rfl⟩
  simp [suppliesEveryGroup, hierPair, ItemList.length]

/-- C7 (amended): whenever a hierarchy is requested and `subsystem_trunc_dims`
is entirely unsupplied (`None`), `initiate_circuit` raises the structural
configuration `Exception` before `generate_subsystems` runs, so no subsystem
node is built; a supplied list is accepted by this check even when it is
missing entries for some groups. -/
theorem initiate_circuit_missing_truncdims_raises (hier : ItemList)
    (h : hierRequested hier = true) :
    initiate_circuit hier none = InitOutcome.structuralError := by
  simp [initiate_circuit, h]

/-- Witness for C7 at the hierarchy `[[1], [2]]`. -/
theorem initiate_circuit_missing_truncdims_raises_witness :
    initiate_circuit hierPair none = InitOutcome.structuralError :=
  initiate_circuit_missing_truncdims_raises hierPair (by decide)
